import Mathlib

/-!
Verification development for the Neuralynx file IO library
(`neurapy/neuralynx/lynxio.py`).

This file gives a shallow embedding, in Lean 4, of the algorithmic core of
`lynxio.py`: the raw-digitizer packet model (`make_nrd_packet`), the
stream resynchronizer (`seek_packet`), the staged batch validator and the
buffered extraction loop of `extract_nrd_ec`, the gap handling of
`read_csc`, the epoch splitter `nrd2mda_epochs`, and a small Python-scoping
semantics for the name-resolution behaviour of `nrd2mda_fast`.

Machine integers: the 32-bit fields of a packet are modelled as natural
numbers holding the unsigned 32-bit bit pattern of the field (the CRC code
in the source casts every field to uint32 with `astype` before XOR-ing);
the 64-bit timestamp is reconstructed exactly as in the source with
`(high <<< 32) ||| low`.  Floating point arithmetic of `read_csc` is
modelled with exact rationals; `numpy` `uint64` wrap-around of `np.diff`
is not modelled (timestamps are taken non-decreasing, as the upstream
validator enforces).
-/

namespace Lynxio

/-! ## Raw digitizer packet (`make_nrd_packet`, lynxio.py lines 27-40)

One decoded `.nrd` packet.  Field order follows the numpy dtype:
`stx, pkt_id, pkt_data_size, timestamp high, timestamp low, status, ttl,
extra (10 words), data (channels words), crc`.  Every field is one 32-bit
word (`extra` is 10 words, `data` is `channels` words). -/

structure NrdPacket where
  stx : ℕ
  pktId : ℕ
  pktDataSize : ℕ
  tsHigh : ℕ
  tsLow : ℕ
  status : ℕ
  ttl : ℕ
  extra : List ℕ
  data : List ℕ
  crc : ℕ
deriving Repr, DecidableEq

/-- The reconstructed 64-bit timestamp:
`ts = (these_packets['timestamp high'].astype('uint64') << 32) | these_packets['timestamp low']`
(lynxio.py lines 345, 459, 558, 649). -/
def tsOf (p : NrdPacket) : ℕ :=
  (p.tsHigh <<< 32) ||| p.tsLow

/-- All 32-bit words of a packet in dtype field order, `crc` included.
This is the word sequence that the CRC computation of `extract_nrd_ec`
XOR-reduces (`field32 = np.vstack([these_packets[k].T for k in
nrd_packet.fields.keys()])`, lines 333-336). -/
def packetWords (p : NrdPacket) : List ℕ :=
  p.stx :: p.pktId :: p.pktDataSize :: p.tsHigh :: p.tsLow :: p.status :: p.ttl ::
    (p.extra ++ p.data ++ [p.crc])

/-- All 32-bit words of a packet except the trailing CRC word. -/
def packetWordsNoCrc (p : NrdPacket) : List ℕ :=
  p.stx :: p.pktId :: p.pktDataSize :: p.tsHigh :: p.tsLow :: p.status :: p.ttl ::
    (p.extra ++ p.data)

/-- XOR-reduction of a word list, starting from 0, exactly as
`crc = np.zeros(...); for idx ...: crc ^= field32[idx, :]` (lines 334-336). -/
def xorFold (l : List ℕ) : ℕ :=
  l.foldl (fun a b => a ^^^ b) 0

/-- The CRC check of `extract_nrd_ec`: the XOR of every 32-bit word of the
packet (CRC word included) must be zero (lines 331-342). -/
def crcOkB (p : NrdPacket) : Bool :=
  xorFold (packetWords p) == 0

/-- Overwrite the `i`-th 32-bit word of a packet (in `packetWords` order)
with `v`.  Used to state the bit-flip sensitivity of the CRC check. -/
def setWord (p : NrdPacket) (i v : ℕ) : NrdPacket :=
  if i = 0 then { p with stx := v }
  else if i = 1 then { p with pktId := v }
  else if i = 2 then { p with pktDataSize := v }
  else if i = 3 then { p with tsHigh := v }
  else if i = 4 then { p with tsLow := v }
  else if i = 5 then { p with status := v }
  else if i = 6 then { p with ttl := v }
  else if i < 7 + p.extra.length then { p with extra := p.extra.set (i - 7) v }
  else if i < 7 + p.extra.length + p.data.length then
    { p with data := p.data.set (i - 7 - p.extra.length) v }
  else { p with crc := v }

/-- Flip bit `j` of the `i`-th 32-bit word of a packet. -/
def flipBit (p : NrdPacket) (i j : ℕ) : NrdPacket :=
  setWord p i (((packetWords p).getD i 0) ^^^ 2 ^ j)

/-! ## Staged batch validator of `extract_nrd_ec` (lines 304-359)

Each structural stage computes `idx = np.argwhere(<check fails>)` and, if
`idx` is non-empty, flags an error and truncates the batch to
`these_packets[:idx[0]]`.  We model one stage by `truncFirstFail`. -/

/-- One structural validation stage: find the first packet failing `ok`;
if there is one, keep only the packets before it and flag an error. -/
def truncFirstFail (ok : NrdPacket → Bool) (ps : List NrdPacket) :
    List NrdPacket × Bool :=
  match ps.findIdx? (fun p => !(ok p)) with
  | some i => (ps.take i, true)
  | none => (ps, false)

/-- The out-of-order-timestamp index of the timestamp stage (lines 344-359):
`bad_idx = 0` when the carried-over `last_ts` exceeds the first timestamp,
otherwise `idx[0] + 1` for the first adjacent pair with `ts[i] > ts[i+1]`. -/
def tsBadIdx (lastTs : ℕ) (ts : List ℕ) : Option ℕ :=
  match ts with
  | [] => none
  | t0 :: _ =>
    if lastTs > t0 then some 0
    else
      match (ts.zip ts.tail).findIdx? (fun ab => ab.1 > ab.2) with
      | some i => some (i + 1)
      | none => none

/-- The timestamp-monotonicity stage: truncate at the bad index, if any,
and report it. -/
def tsStage (lastTs : ℕ) (ps : List NrdPacket) :
    List NrdPacket × Option ℕ :=
  match tsBadIdx lastTs (ps.map tsOf) with
  | some i => (ps.take i, some i)
  | none => (ps, none)

/-- Outcome of validating one batch: the accepted prefix plus one error
flag per check, mirroring the five error counters of `extract_nrd_ec`. -/
structure ValidationResult where
  accepted : List NrdPacket
  stxBad : Bool
  idBad : Bool
  sizeBad : Bool
  crcBad : Bool
  tsBad : Option ℕ
deriving Repr, DecidableEq

/-- The full validator of `extract_nrd_ec` (lines 304-359): the five checks
in source order - start marker (`stx != 2048`), packet id (`pkt_id != 1`),
size field (`pkt_data_size != 10 + channels`), CRC, timestamp
monotonicity - each stage running on the surviving prefix of the previous
one, and each stage after the first guarded by `these_packets.size > 0`. -/
def validateBatch (channels lastTs : ℕ) (ps : List NrdPacket) :
    ValidationResult :=
  let r1 := truncFirstFail (fun p => p.stx == 2048) ps
  let r2 := if r1.1.length > 0 then truncFirstFail (fun p => p.pktId == 1) r1.1
            else (r1.1, false)
  let r3 := if r2.1.length > 0 then
              truncFirstFail (fun p => p.pktDataSize == 10 + channels) r2.1
            else (r2.1, false)
  let r4 := if r3.1.length > 0 then truncFirstFail crcOkB r3.1
            else (r3.1, false)
  let r5 := if r4.1.length > 0 then tsStage lastTs r4.1
            else (r4.1, none)
  ⟨r5.1, r1.2, r2.2, r3.2, r4.2, r5.2⟩

/-- Spec-side structural check of a single packet (marker, id, size, CRC). -/
def packetStructOkB (channels : ℕ) (p : NrdPacket) : Bool :=
  (p.stx == 2048) && ((p.pktId == 1) && ((p.pktDataSize == 10 + channels) && crcOkB p))

/-- The longest prefix of a batch in which every packet passes all
structural checks and the timestamps are non-decreasing starting from the
carried-over watermark.  This is the specification the validator is
compared against. -/
def goodRun (channels lastTs : ℕ) : List NrdPacket → List NrdPacket
  | [] => []
  | p :: rest =>
    if packetStructOkB channels p && decide (lastTs ≤ tsOf p) then
      p :: goodRun channels (tsOf p) rest
    else []

/-- The longest non-decreasing-timestamp prefix, starting from a
watermark; specification for the timestamp stage alone. -/
def monoRun (lastTs : ℕ) : List NrdPacket → List NrdPacket
  | [] => []
  | p :: rest =>
    if lastTs ≤ tsOf p then p :: monoRun (tsOf p) rest else []

/-! ## Stream resynchronizer `seek_packet` (lines 263-274)

`seek_packet` reads the stream 4 bytes at a time until a chunk equals the
magic byte string `b'\x00\x08\x00\x00'` (the 32-bit value 2048 in the
packet's native byte order), rewinds 4 bytes, and returns `stop - start`,
the number of bytes skipped.  We model the byte stream from the starting
cursor as a list of bytes and return the final cursor offset, which for a
scan started at offset 0 equals both the cursor position and the reported
garbage-byte count. -/

/-- Scan from cursor offset `pos`: read a 4-byte chunk; stop (rewinding
over the chunk) when it is the marker `[0x00, 0x08, 0x00, 0x00]`; when
fewer than 4 bytes remain the read is short and the loop exits with the
cursor at end of file. -/
def seekPacketAux (pos : ℕ) : List ℕ → ℕ
  | a :: b :: c :: d :: rest =>
    if a = 0 ∧ b = 8 ∧ c = 0 ∧ d = 0 then pos
    else seekPacketAux (pos + 4) rest
  | l => pos + l.length

/-- `seek_packet` started at offset 0 of byte stream `s`: the returned
value is both the skipped-byte count and the final cursor offset. -/
def seek_packet (s : List ℕ) : ℕ :=
  seekPacketAux 0 s

/-- The 4-byte start-marker pattern `b'\x00\x08\x00\x00'`. -/
def markerBytes : List ℕ := [0, 8, 0, 0]

/-! ## Buffered extraction loop of `extract_nrd_ec` (lines 280-381)

The loop reads one buffer's worth of packets at a time, validates the
batch, writes the accepted prefix, updates the per-check error counters
and the timestamp watermark, and stops on: an empty read (end of file), the
packet-count cap (`pkt_cnt >= max_pkts`, checked only after a full batch),
or the error budget (`pkt_ts_err_cnt + pkt_crc_err_cnt + stx_err_cnt >
error_bugout`).  We model the loop over the sequence of decoded batches
the successive `np.fromfile` calls return. -/

/-- Why the extraction loop stopped. -/
inductive StopReason where
  | eof : StopReason
  | cap : StopReason
  | budget : StopReason
deriving Repr, DecidableEq

/-- The per-run accumulators of `extract_nrd_ec` (lines 280-297). -/
structure ExtState where
  lastTs : ℕ
  pktCnt : ℕ
  stxErr : ℕ
  idErr : ℕ
  sizeErr : ℕ
  crcErr : ℕ
  tsErr : ℕ
deriving Repr, DecidableEq

/-- The fresh state at the start of a run: all counters 0, `last_ts = 0`. -/
def initState : ExtState := ⟨0, 0, 0, 0, 0, 0, 0⟩

/-- Result of one extraction run. -/
structure RunResult where
  state : ExtState
  reason : StopReason
  out : List NrdPacket
deriving Repr, DecidableEq

/-- Process one batch: validate, bump the error counters by the stage
flags, write the accepted prefix, update the watermark from the last
accepted packet, and add the accepted count to `pkt_cnt`. -/
def stepBatch (channels : ℕ) (st : ExtState) (b : List NrdPacket) :
    ExtState × List NrdPacket :=
  let r := validateBatch channels st.lastTs b
  let acc := r.accepted
  let st' : ExtState :=
    { lastTs := match acc.getLast? with
                | some p => tsOf p
                | none => st.lastTs
      pktCnt := st.pktCnt + acc.length
      stxErr := st.stxErr + (if r.stxBad then 1 else 0)
      idErr := st.idErr + (if r.idBad then 1 else 0)
      sizeErr := st.sizeErr + (if r.sizeBad then 1 else 0)
      crcErr := st.crcErr + (if r.crcBad then 1 else 0)
      tsErr := st.tsErr + (if r.tsBad.isSome then 1 else 0) }
  (st', acc)

/-- The extraction loop over the successive decoded batches.  An empty
read ends the `while these_packets.size > 0` loop (end of file); after a
batch the cap is checked first (`pkt_cnt >= max_pkts`, line 370), then the
error budget (`pkt_ts_err_cnt + pkt_crc_err_cnt + stx_err_cnt >
error_bugout`, line 377).  `maxPkts = none` models `max_pkts = -1`. -/
def runLoop (channels : ℕ) (maxPkts : Option ℕ) (budget : ℕ)
    (st : ExtState) : List (List NrdPacket) → RunResult
  | [] => ⟨st, .eof, []⟩
  | b :: rest =>
    if b.length = 0 then ⟨st, .eof, []⟩
    else
      let s := stepBatch channels st b
      let capHit : Bool := match maxPkts with
        | some m => decide (s.1.pktCnt ≥ m)
        | none => false
      if capHit then ⟨s.1, .cap, s.2⟩
      else if s.1.tsErr + s.1.crcErr + s.1.stxErr > budget then
        ⟨s.1, .budget, s.2⟩
      else
        let r := runLoop channels maxPkts budget s.1 rest
        ⟨r.state, r.reason, s.2 ++ r.out⟩

/-- Split a packet stream into the successive batches that
`np.fromfile(f, dtype=nrd_packet, count=buffer_size)` returns on a clean
run: full chunks of `k` packets, then the remainder.  (Fuel-driven so the
definition reduces by `rfl`.) -/
def chunkAux (k : ℕ) : ℕ → List NrdPacket → List (List NrdPacket)
  | 0, _ => []
  | _, [] => []
  | fuel + 1, l => l.take k :: chunkAux k fuel (l.drop k)

/-- All batches of size `k` (last one possibly shorter) of a stream. -/
def chunkList (k : ℕ) (l : List NrdPacket) : List (List NrdPacket) :=
  chunkAux k l.length l

/-- Entry point modelling `extract_nrd_ec` on a clean-aligned stream: the
buffer size is first capped by `max_pkts` (lines 288-290), then the loop
runs over the stream's successive batches. -/
def extractModel (channels : ℕ) (maxPkts : Option ℕ) (bufSize budget : ℕ)
    (stream : List NrdPacket) : RunResult :=
  let eb := match maxPkts with
    | some m => if bufSize > m then m else bufSize
    | none => bufSize
  runLoop channels maxPkts budget initState (chunkList eb stream)

/-! ## Continuous-trace reconstruction, gapped branch of `read_csc`
(lines 101-141)

A continuous-record packet carries a timestamp (us), the nominal rate
`Fs`, the valid-sample count `Ns` and a fixed 512-wide sample window (the
dtype field `('samp', '512h')`); `samp[n0:n1].ravel()` therefore always
contributes `512 * (n1 - n0)` samples per section.  Floats are modelled
as exact rationals. -/

structure CscPacket where
  ts : ℕ
  fsNominal : ℕ
  ns : ℕ
deriving Repr, DecidableEq, Inhabited

/-- `packet_duration_us = 512 * (1. / data['Fs'][0]) * 1e6` (line 101). -/
def packetDurationUs (ps : List CscPacket) : ℚ :=
  512 * (1 / ((ps.headD default).fsNominal : ℚ)) * 1000000

/-- The timestamp column `ts_us = data['timestamp']`. -/
def tsUs (ps : List CscPacket) : List ℕ := ps.map (·.ts)

/-- The valid-sample-count column `Ns = data['Ns']`. -/
def nsList (ps : List CscPacket) : List ℕ := ps.map (·.ns)

/-- `dt_us = np.diff(ts_us)` as exact rationals (uint64 wrap-around of
decreasing timestamps is not modelled). -/
def dtUs (ps : List CscPacket) : List ℚ :=
  ((tsUs ps).zip (tsUs ps).tail).map (fun ab => (ab.2 : ℚ) - (ab.1 : ℚ))

/-- `idx = np.argwhere(dt_us > packet_duration_us)` (line 109): the
boundary indices that span a recording gap. -/
def gapIdx (ps : List CscPacket) : List ℕ :=
  (List.range (dtUs ps).length).filter
    (fun i => decide ((dtUs ps).getD i 0 > packetDurationUs ps))

/-- `idx += 1; idx = np.insert(idx, 0, 0); idx = np.append(idx, ts_us.size)`
(lines 116-118): the section boundary index vector. -/
def boundsList (ps : List CscPacket) : List ℕ :=
  0 :: ((gapIdx ps).map (· + 1) ++ [ps.length])

/-- Consecutive pairs `(idx[n], idx[n+1])` of the section bounds. -/
def boundPairs (ps : List CscPacket) : List (ℕ × ℕ) :=
  (boundsList ps).zip (boundsList ps).tail

/-- `(Ns[n0:n1-1] / (dt_us[n0:n1-1] * 1e-6)).sum()` (line 128): the sum of
per-boundary instantaneous rates inside one section. -/
def pairRateSum (ps : List CscPacket) (n0 n1 : ℕ) : ℚ :=
  ((List.range' n0 (n1 - 1 - n0)).map
    (fun i => ((nsList ps).getD i 0 : ℚ) / ((dtUs ps).getD i 0 * (1 / 1000000)))).sum

/-- `estimFs_sum` after the section loop (lines 120-128). -/
def estimFsSum (ps : List CscPacket) : ℚ :=
  ((boundPairs ps).map
    (fun ab => if ab.2 - ab.1 > 1 then pairRateSum ps ab.1 ab.2 else 0)).sum

/-- `N_samps` after the section loop (lines 121-129): the number of
intra-section packet boundaries. -/
def nSamps (ps : List CscPacket) : ℕ :=
  ((boundPairs ps).map
    (fun ab => if ab.2 - ab.1 > 1 then ab.2 - 1 - ab.1 else 0)).sum

/-- `Fs = estimFs_sum / float(N_samps)` (line 131): the estimated global
sampling rate of the gapped branch. -/
def readCscFs (ps : List CscPacket) : ℚ :=
  estimFsSum ps / (nSamps ps : ℚ)

/-- Python `int()` applied to a real value: truncation toward zero. -/
def pyInt (q : ℚ) : ℤ :=
  if 0 ≤ q then ⌊q⌋ else ⌈q⌉

/-- `sections[n].size = 512 * (idx[n+1] - idx[n])`: each packet row of the
`'512h'` sample field contributes 512 samples to its section. -/
def sectionSizes (ps : List CscPacket) : List ℕ :=
  (boundPairs ps).map (fun ab => 512 * (ab.2 - ab.1))

/-- The padding loop of lines 133-140: for each section after the first,
`Npad = int((ts_us[idx[n]] - ts_us[0]) * 1e-6 * Fs - cum_N)`, then
`cum_N += Npad + sections[n].size`.  Input pairs are
`(ts_us[idx[n]], sections[n].size)` for `n = 1, ...`. -/
def padRec (ts0 : ℕ) (fs : ℚ) : List (ℕ × ℕ) → ℤ → List ℤ
  | [], _ => []
  | (tsn, sz) :: rest, cumN =>
    let npad := pyInt (((tsn : ℚ) - (ts0 : ℚ)) * (1 / 1000000) * fs - (cumN : ℚ))
    npad :: padRec ts0 fs rest (cumN + npad + sz)

/-- The `(ts_us[idx[n]], sections[n].size)` pairs for `n = 1, ...`:
section start positions are the interior entries of the bounds vector. -/
def padPairs (ps : List CscPacket) : List (ℕ × ℕ) :=
  (((boundsList ps).tail.dropLast).map (fun i => (tsUs ps).getD i 0)).zip
    (sectionSizes ps).tail

/-- The zero-run lengths inserted before sections `1, ...` by the gapped
branch of `read_csc`. -/
def readCscPads (ps : List CscPacket) : List ℤ :=
  padRec ((tsUs ps).getD 0 0) (readCscFs ps) (padPairs ps)
    ((sectionSizes ps).getD 0 0 : ℤ)

/-- The boundary indices that do not span a gap: the intra-run
consecutive-packet boundaries of the spec. -/
def nonGapIdx (ps : List CscPacket) : List ℕ :=
  (List.range (dtUs ps).length).filter
    (fun i => decide ((dtUs ps).getD i 0 ≤ packetDurationUs ps))

/-- Modelled from the spec's words, for refinement comparison with
`readCscFs` (claim C2): the sum of valid-sample counts across all
intra-run boundaries divided by the sum of elapsed seconds across those
same boundaries. -/
def specGlobalRate (ps : List CscPacket) : ℚ :=
  (((nonGapIdx ps).map (fun i => ((nsList ps).getD i 0 : ℚ))).sum) /
    (((nonGapIdx ps).map (fun i => (dtUs ps).getD i 0 * (1 / 1000000))).sum)

/-- Modelled from the spec's words, for refinement comparison with
`readCscPads` (claim C3): the first inserted zero-run length as
`round(elapsed_seconds_since_start * rate) - cumulative_samples_so_far`. -/
def specRoundPadHead (ps : List CscPacket) : ℤ :=
  round ((((padPairs ps).getD 0 (0, 0)).1 - ((tsUs ps).getD 0 0) : ℚ)
      * (1 / 1000000) * readCscFs ps)
    - ((sectionSizes ps).getD 0 0 : ℤ)

/-! ## Epoch splitter `nrd2mda_epochs` (lines 477-576)

Per batch, per epoch, the splitter selects `ts_idx` (the packets whose
timestamp lies inside the epoch's inclusive bounds) and, when `ts_idx` is
non-empty, writes those packets' selected channels and adds
`these_packets.size` (the whole batch!) to the group's `pkt_cnt`; on
completion `pkt_cnt` is written once over the header placeholder (lines
570-574).  An epoch is modelled by its inclusive bound pair; for each
epoch we track `(headerCnt, writtenCnt)`: the count that ends up in the
header and the number of packet records actually written.  The loop
condition `while these_packets.size > 0 and np.any(ts <= max_stop_ts)`
tests the timestamps of the **previous** iteration (`ts` starts as the
scalar 0, modelled as `[0]`). -/

/-- Inclusive epoch bounds test:
`np.logical_and(ts >= epoch['start_ts'], ts <= epoch['stop_ts'])`. -/
def inEpochB (e : ℕ × ℕ) (t : ℕ) : Bool :=
  decide (e.1 ≤ t) && decide (t ≤ e.2)

/-- One batch of the splitter: for each epoch, if any packet of the batch
falls inside the bounds, the matching packets are written (second
component) while the header counter is advanced by the whole batch size
(first component), exactly as `nt['pkt_cnt'] += these_packets.size`. -/
def epochStep (epochs : List (ℕ × ℕ)) (b : List NrdPacket)
    (counts : List (ℕ × ℕ)) : List (ℕ × ℕ) :=
  (epochs.zip counts).map (fun ec =>
    let k := ((b.map tsOf).filter (inEpochB ec.1)).length
    if k ≠ 0 then (ec.2.1 + b.length, ec.2.2 + k) else ec.2)

/-- The reading loop of `nrd2mda_epochs` (lines 555-567). -/
def epochLoop (epochs : List (ℕ × ℕ)) (maxStop : ℕ) :
    List (List NrdPacket) → List ℕ → List (ℕ × ℕ) → List (ℕ × ℕ)
  | [], _, counts => counts
  | b :: rest, prevTs, counts =>
    if b.length ≠ 0 ∧ prevTs.any (fun t => decide (t ≤ maxStop)) = true then
      epochLoop epochs maxStop rest (b.map tsOf) (epochStep epochs b counts)
    else counts

/-- `max_stop_ts = max([v['stop_ts'] for v in mda_epochs.values()])`. -/
def maxStopOf (epochs : List (ℕ × ℕ)) : ℕ :=
  (epochs.map (·.2)).foldr max 0

/-- `nrd2mda_epochs` over the successive decoded batches: returns, per
epoch group, `(headerCnt, writtenCnt)` - the packet count finally written
over the header placeholder, and the number of packet records whose
samples were actually written to that container. -/
def nrd2mdaModel (epochs : List (ℕ × ℕ)) (batches : List (List NrdPacket)) :
    List (ℕ × ℕ) :=
  epochLoop epochs (maxStopOf epochs) batches [0] (epochs.map (fun _ => (0, 0)))

/-! ## Python name-resolution semantics for `nrd2mda_fast` (lines 579-664)

`nrd2mda_fast` evaluates `make_nrd_packet(channels)` on its first working
line (613) but `channels` is not a parameter; it is assigned only at line
636, inside the input-file `with` block.  By Python's scoping rules a name
assigned anywhere in a function body is local throughout the body, so the
read at line 613 raises `UnboundLocalError` before any `open` call runs.

We embed just enough of Python for this: expressions resolve names (a
name assigned somewhere in the body is a local and must already be bound;
other names resolve to module globals / builtins, which all exist here),
and statements execute in order, counting every file `open` (output files
and the `with open(...)` input file).  Branch conditions carry no values,
so `if`/`while` consult an arbitrary branch oracle; the fuel argument
bounds the number of executed statements.  Variable names are numeric
codes; the transcription of the body is annotated with the source line
each statement comes from, and attribute access (`logger.info`,
`np.fromfile`, ...) is elided to resolution of the base name. -/

def vFname : ℕ := 0
def vFmdaname : ℕ := 1
def vChannelList : ℕ := 2
def vMaxPkts : ℕ := 3
def vBufferSize : ℕ := 4
def vStartTs : ℕ := 5
def vStopTs : ℕ := 6
def vNrdPacket : ℕ := 7
def vPktCnt : ℕ := 8
def vFmda : ℕ := 9
def vNumChannels : ℕ := 10
def vMdaHdr : ℕ := 11
def vF : ℕ := 12
def vHdr : ℕ := 13
def vChannels : ℕ := 14
def vPkt : ℕ := 15
def vThesePackets : ℕ := 16
def vTs : ℕ := 17
def vTsIdx : ℕ := 18
def gLogger : ℕ := 100
def gMakeNrdPacket : ℕ := 101
def gNp : ℕ := 102
def gLen : ℕ := 103
def gReadHeader : ℕ := 104
def gInt : ℕ := 105

/-- Python expressions, reduced to what name resolution needs: literals,
names, binary operations, and calls of a base name with up to three
relevant argument expressions. -/
inductive PExpr where
  | lit : PExpr
  | name : ℕ → PExpr
  | binop : PExpr → PExpr → PExpr
  | call1 : ℕ → PExpr → PExpr
  | call2 : ℕ → PExpr → PExpr → PExpr
  | call3 : ℕ → PExpr → PExpr → PExpr → PExpr
deriving Repr, DecidableEq

/-- Python statements: assignment, bare expression, `x = open(...)`,
`with open(...) as x: body`, `if`/`else`, `while`, `break`. -/
inductive PStmt where
  | assign : ℕ → PExpr → PStmt
  | exprStmt : PExpr → PStmt
  | openOut : ℕ → PExpr → PStmt
  | withOpen : ℕ → PExpr → List PStmt → PStmt
  | ifElse : PExpr → List PStmt → List PStmt → PStmt
  | whileLoop : PExpr → List PStmt → PStmt
  | brk : PStmt
deriving Repr

/-- Interpreter state: the locals bound so far, the number of files opened
so far, and the branch-oracle cursor. -/
structure PyState where
  bound : List ℕ
  opens : ℕ
  tick : ℕ
deriving Repr, DecidableEq

/-- Runtime name errors (plus fuel exhaustion of the bounded
interpreter). -/
inductive PyErr where
  | unboundLocal : ℕ → PyErr
  | outOfFuel : PyErr
deriving Repr, DecidableEq

/-- Result tag of executing a statement list. -/
inductive StepRes where
  | ok : StepRes
  | broke : StepRes
  | err : PyErr → StepRes
deriving Repr, DecidableEq

/-- Resolve one name: a function-local (any name assigned somewhere in the
body) must already be bound, otherwise `UnboundLocalError`; any other name
resolves to the module/builtin scope. -/
def resolveName (locals : List ℕ) (st : PyState) (x : ℕ) : Option PyErr :=
  if x ∈ locals then
    if x ∈ st.bound then none else some (.unboundLocal x)
  else none

/-- Evaluate an expression for effects on name resolution: the first
unresolvable name (callee first, then arguments left to right) raises. -/
def evalE (locals : List ℕ) (st : PyState) : PExpr → Option PyErr
  | .lit => none
  | .name x => resolveName locals st x
  | .binop a b => (evalE locals st a) <|> (evalE locals st b)
  | .call1 f a => (resolveName locals st f) <|> (evalE locals st a)
  | .call2 f a b => (resolveName locals st f) <|> (evalE locals st a) <|> (evalE locals st b)
  | .call3 f a b c =>
    (resolveName locals st f) <|> (evalE locals st a) <|> (evalE locals st b) <|>
      (evalE locals st c)

/-- Execute a statement list.  `oracle` decides every `if`/`while`
condition (conditions carry no values in this embedding); `fuel` bounds
the number of executed statements so iteration terminates. -/
def runStmts (oracle : ℕ → Bool) (locals : List ℕ) :
    ℕ → List PStmt → PyState → PyState × StepRes
  | _, [], st => (st, .ok)
  | 0, _ :: _, st => (st, .err .outOfFuel)
  | fuel + 1, s :: rest, st =>
    match s with
    | .brk => (st, .broke)
    | .assign x e =>
      match evalE locals st e with
      | some er => (st, .err er)
      | none => runStmts oracle locals fuel rest { st with bound := x :: st.bound }
    | .exprStmt e =>
      match evalE locals st e with
      | some er => (st, .err er)
      | none => runStmts oracle locals fuel rest st
    | .openOut x e =>
      match evalE locals st e with
      | some er => (st, .err er)
      | none =>
        runStmts oracle locals fuel rest
          { st with bound := x :: st.bound, opens := st.opens + 1 }
    | .withOpen x e body =>
      match evalE locals st e with
      | some er => (st, .err er)
      | none =>
        let st1 : PyState := { st with bound := x :: st.bound, opens := st.opens + 1 }
        match runStmts oracle locals fuel body st1 with
        | (st2, .err er) => (st2, .err er)
        | (st2, _) => runStmts oracle locals fuel rest st2
    | .ifElse c t e =>
      match evalE locals st c with
      | some er => (st, .err er)
      | none =>
        let st1 : PyState := { st with tick := st.tick + 1 }
        match runStmts oracle locals fuel (if oracle st.tick then t else e) st1 with
        | (st2, .ok) => runStmts oracle locals fuel rest st2
        | (st2, .broke) => (st2, .broke)
        | (st2, .err er) => (st2, .err er)
    | .whileLoop c body =>
      match evalE locals st c with
      | some er => (st, .err er)
      | none =>
        let st1 : PyState := { st with tick := st.tick + 1 }
        if oracle st.tick then
          match runStmts oracle locals fuel body st1 with
          | (st2, .ok) => runStmts oracle locals fuel (PStmt.whileLoop c body :: rest) st2
          | (st2, .broke) => runStmts oracle locals fuel rest st2
          | (st2, .err er) => (st2, .err er)
        else runStmts oracle locals fuel rest st1

/-- The names assigned anywhere in a statement list (Python's syntactic
local-variable set): assignment targets, `open` targets and `with`
targets, recursing into every nested block. -/
def assignedIn : ℕ → List PStmt → List ℕ
  | 0, _ => []
  | _, [] => []
  | fuel + 1, s :: rest =>
    (match s with
     | .assign x _ => [x]
     | .openOut x _ => [x]
     | .withOpen x _ body => x :: assignedIn fuel body
     | .ifElse _ t e => assignedIn fuel t ++ assignedIn fuel e
     | .whileLoop _ body => assignedIn fuel body
     | _ => []) ++ assignedIn fuel rest

/-- The body of `nrd2mda_fast` (lines 612-664), one statement per source
statement, in source order. -/
def pyNrd2mdaFastBody : List PStmt := [
  -- 612: logger.info('Notice: ...')
  .exprStmt (.call1 gLogger .lit),
  -- 613: nrd_packet = make_nrd_packet(channels)
  .assign vNrdPacket (.call1 gMakeNrdPacket (.name vChannels)),
  -- 615: pkt_cnt = 0
  .assign vPktCnt .lit,
  -- 616-618: if max_pkts != -1: if buffer_size > max_pkts: buffer_size = max_pkts
  .ifElse (.binop (.name vMaxPkts) .lit)
    [.ifElse (.binop (.name vBufferSize) (.name vMaxPkts))
      [.assign vBufferSize (.name vMaxPkts)] []] [],
  -- 620-621: if stop_ts == -1: stop_ts = np.inf
  .ifElse (.binop (.name vStopTs) .lit) [.assign vStopTs (.name gNp)] [],
  -- 624: fmda = open(fmdaname, 'wb')
  .openOut vFmda (.name vFmdaname),
  -- 626: num_channels = len(channel_list)
  .assign vNumChannels (.call1 gLen (.name vChannelList)),
  -- 627: mda_hdr = np.array([-5, 4, 2, num_channels, 0], dtype='i')
  .assign vMdaHdr (.call1 gNp (.name vNumChannels)),
  -- 628: mda_hdr.tofile(fmda)
  .exprStmt (.call1 vMdaHdr (.name vFmda)),
  -- 630: with open(fname, 'rb') as f:
  .withOpen vF (.name vFname) [
    -- 631: hdr = read_header(f)
    .assign vHdr (.call1 gReadHeader (.name vF)),
    -- 632: logger.info('File header: {:s}'.format(hdr))
    .exprStmt (.call2 gLogger .lit (.name vHdr)),
    -- 635: hdr = hdr.split()
    .assign vHdr (.call1 vHdr .lit),
    -- 636: channels = int(hdr[hdr.index('-NumADChannels') + 1])
    .assign vChannels (.call2 gInt (.name vHdr) (.name vHdr)),
    -- 639: pkt = f.read(4)
    .assign vPkt (.call1 vF .lit),
    -- 640-644: while len(pkt) == 4: if pkt == magic: f.seek(-4, 1); break / pkt = f.read(4)
    .whileLoop (.call1 gLen (.name vPkt)) [
      .ifElse (.binop (.name vPkt) .lit) [.exprStmt (.call1 vF .lit), .brk] [],
      .assign vPkt (.call1 vF .lit)],
    -- 646: these_packets = np.fromfile(f, dtype=nrd_packet, count=buffer_size)
    .assign vThesePackets (.call3 gNp (.name vF) (.name vNrdPacket) (.name vBufferSize)),
    -- 647: ts = 0
    .assign vTs .lit,
    -- 648-657: while these_packets.size > 0 and np.any(ts <= stop_ts): ...
    .whileLoop (.binop (.call1 vThesePackets .lit)
        (.call2 gNp (.name vTs) (.name vStopTs))) [
      -- 649: ts = (these_packets['timestamp high'].astype('uint64') << 32) | ...
      .assign vTs (.binop (.call1 vThesePackets .lit) (.call1 vThesePackets .lit)),
      -- 650: ts_idx = np.argwhere(np.logical_and(ts >= start_ts, ts <= stop_ts))
      .assign vTsIdx (.call2 gNp
        (.binop (.name vTs) (.name vStartTs)) (.binop (.name vTs) (.name vStopTs))),
      -- 651: these_packets['data'][ts_idx, channel_list].tofile(fmda)
      .exprStmt (.call3 vThesePackets (.name vTsIdx) (.name vChannelList) (.name vFmda)),
      -- 653: pkt_cnt += these_packets.size
      .assign vPktCnt (.binop (.name vPktCnt) (.call1 vThesePackets .lit)),
      -- 654-656: if max_pkts != -1: if pkt_cnt >= max_pkts: break
      .ifElse (.binop (.name vMaxPkts) .lit)
        [.ifElse (.binop (.name vPktCnt) (.name vMaxPkts)) [.brk] []] [],
      -- 657: these_packets = np.fromfile(f, dtype=nrd_packet, count=buffer_size)
      .assign vThesePackets (.call3 gNp (.name vF) (.name vNrdPacket) (.name vBufferSize))]],
  -- 660: fmda.seek(16)
  .exprStmt (.call1 vFmda .lit),
  -- 661: np.array(pkt_cnt, dtype='i').tofile(fmda)
  .exprStmt (.call2 gNp (.name vPktCnt) (.name vFmda)),
  -- 663: fmda.close()
  .exprStmt (.call1 vFmda .lit),
  -- 664: logger.info('Extracted {:d} packets'.format(pkt_cnt))
  .exprStmt (.call2 gLogger (.name vPktCnt) .lit)]

/-- The syntactic local-variable set of `nrd2mda_fast`'s body. -/
def pyLocalsFast : List ℕ := assignedIn 1000 pyNrd2mdaFastBody

/-- The parameters of `nrd2mda_fast` (line 579), bound at entry: `fname,
fmdaname, channel_list, max_pkts, buffer_size, start_ts, stop_ts`.  Note
`channels` is not among them. -/
def pyParamsFast : List ℕ :=
  [vFname, vFmdaname, vChannelList, vMaxPkts, vBufferSize, vStartTs, vStopTs]

/-- Run `nrd2mda_fast`'s body from a fresh call frame. -/
def pyRunFast (oracle : ℕ → Bool) (fuel : ℕ) : PyState × StepRes :=
  runStmts oracle pyLocalsFast fuel pyNrd2mdaFastBody ⟨pyParamsFast, 0, 0⟩

/-! ## Derived quantities used in the claim statements -/

/-- The combined error count that gates termination of `extract_nrd_ec`:
`pkt_ts_err_cnt + pkt_crc_err_cnt + stx_err_cnt` (line 377). -/
def errSum (st : ExtState) : ℕ :=
  st.tsErr + st.crcErr + st.stxErr

/-- The per-boundary instantaneous rate `Ns[i] / (dt_us[i] * 1e-6)`. -/
def boundaryRate (ps : List CscPacket) (i : ℕ) : ℚ :=
  ((nsList ps).getD i 0 : ℚ) / ((dtUs ps).getD i 0 * (1 / 1000000))

/-- The cumulative sample count already emitted when the `n`-th padding
step of `padRec ts0 fs pairs cumN` runs: the initial count plus every
earlier zero-run and every earlier section's real samples. -/
def emittedBefore (ts0 : ℕ) (fs : ℚ) (pairs : List (ℕ × ℕ)) (cumN : ℤ)
    (n : ℕ) : ℤ :=
  cumN + ((padRec ts0 fs pairs cumN).take n).sum
    + ((pairs.take n).map (fun ab => (ab.2 : ℤ))).sum

/-! ## Concrete test vectors -/

/-- A structurally valid one-channel packet with timestamp `t`:
`stx = 2048`, `pkt_id = 1`, `pkt_data_size = 10 + 1`, all other words zero
except the low timestamp word `t`; the CRC word `2048 ^^^ 1 ^^^ 11 ^^^ t`
makes the full XOR reduction zero for every `t`. -/
def pkAt (t : ℕ) : NrdPacket :=
  ⟨2048, 1, 11, 0, t, 0, 0, List.replicate 10 0, [0], 2058 ^^^ t⟩

/-- A packet with a corrupted start marker (everything else valid). -/
def pBadMarker : NrdPacket :=
  ⟨0, 1, 11, 0, 50, 0, 0, List.replicate 10 0, [0], 10⟩

/-- A packet that passes the marker/id/size checks but fails the CRC. -/
def pBadCrc : NrdPacket :=
  ⟨2048, 1, 11, 0, 60, 0, 0, List.replicate 10 0, [0], 9999⟩

/-- The timestamp battery `[100, 105, 104, 110]` of the spec. -/
def tsQuad : List NrdPacket :=
  [pkAt 100, pkAt 105, pkAt 104, pkAt 110]

/-- A clean 20-packet stream (non-decreasing equal timestamps). -/
def cleanStream20 : List NrdPacket :=
  List.replicate 20 (pkAt 0)

/-- Byte stream with the marker at the unaligned offset 1. -/
def unalignedStream : List ℕ :=
  [1, 0, 8, 0, 0, 0, 0, 0]

/-- Byte stream with 4 garbage bytes, marker at aligned offset 4. -/
def alignedStream : List ℕ :=
  [9, 9, 9, 9, 0, 8, 0, 0]

/-- Four continuous-record packets, nominal rate 512 (hence nominal
packet duration 1 s), with a 8.5 s jump before the last packet: intra-run
boundary spacings 0.5 s and 1 s. -/
def cscEx : List CscPacket :=
  [⟨0, 512, 512⟩, ⟨500000, 512, 512⟩, ⟨1500000, 512, 512⟩, ⟨10000000, 512, 512⟩]

/-- As `cscEx`, but the post-gap packet lands at 10.00099 s so that
`elapsed * rate` has fractional part above one half. -/
def cscEx3 : List CscPacket :=
  [⟨0, 512, 512⟩, ⟨500000, 512, 512⟩, ⟨1500000, 512, 512⟩, ⟨10000990, 512, 512⟩]


/-! # Supporting lemmas

The staged validator equals the longest-good-run specification, the XOR
CRC algebra, the extraction-loop stop conditions, the resynchronizer on
aligned streams, and the section decomposition of the `read_csc` rate
estimate. -/

theorem truncFirstFail_fst (ok : NrdPacket → Bool) :
    ∀ ps : List NrdPacket, (truncFirstFail ok ps).1 = ps.takeWhile ok
  | [] => rfl
  | a :: l => by
    unfold truncFirstFail
    rw [List.findIdx?_cons]
    by_cases h : ok a
    · simp only [h, Bool.not_true, Bool.false_eq_true, if_false, List.findIdx?_succ]
      cases hf : l.findIdx? (fun p => !(ok p)) with
      | some i =>
        have ih := truncFirstFail_fst ok l
        rw [truncFirstFail, hf] at ih
        simp only [List.takeWhile_cons_of_pos h, Option.map_some', List.take_succ_cons,
          List.cons.injEq, true_and]
        exact ih
      | none =>
        have ih := truncFirstFail_fst ok l
        rw [truncFirstFail, hf] at ih
        simp only [List.takeWhile_cons_of_pos h, Option.map_none', List.cons.injEq, true_and]
        exact ih
    · simp [h, List.takeWhile_cons_of_neg]

theorem tsBadIdx_cons (lastTs t0 : ℕ) (ts : List ℕ) :
    tsBadIdx lastTs (t0 :: ts) =
      if lastTs > t0 then some 0 else (tsBadIdx t0 ts).map (· + 1) := by
  by_cases h : lastTs > t0
  · simp [tsBadIdx, h]
  · rw [if_neg h]
    cases ts with
    | nil => simp [tsBadIdx, h]
    | cons t1 ts' =>
      by_cases h1 : t0 > t1
      · simp [tsBadIdx, h, h1, List.findIdx?_cons]
      · simp only [tsBadIdx, h, if_false, List.tail_cons, List.zip_cons_cons,
          List.findIdx?_cons, h1, decide_eq_true_eq, if_neg, List.findIdx?_succ]
        cases hf : ((t1 :: ts').zip ts').findIdx? (fun ab => decide (ab.1 > ab.2)) <;>
          simp [hf, h1]

theorem tsBadIdx_lt : ∀ (lastTs : ℕ) (ts : List ℕ) (i : ℕ),
    tsBadIdx lastTs ts = some i → i < ts.length
  | lastTs, [], i => by simp [tsBadIdx]
  | lastTs, t0 :: ts, i => by
    rw [tsBadIdx_cons]
    by_cases h : lastTs > t0
    · rw [if_pos h]
      intro hi
      cases hi
      simp
    · rw [if_neg h]
      cases hf : tsBadIdx t0 ts with
      | none => simp
      | some k =>
        have := tsBadIdx_lt t0 ts k hf
        simp only [Option.map_some', Option.some.injEq]
        intro hi
        subst hi
        simp
        omega

theorem tsStage_fst : ∀ (ps : List NrdPacket) (lastTs : ℕ),
    (tsStage lastTs ps).1 = monoRun lastTs ps
  | [], _ => rfl
  | p :: rest, lastTs => by
    unfold tsStage
    rw [List.map_cons, tsBadIdx_cons]
    by_cases h : lastTs > tsOf p
    · rw [if_pos h]
      simp [monoRun, Nat.not_le.mpr h]
    · rw [if_neg h]
      have hle : lastTs ≤ tsOf p := Nat.not_lt.mp h
      have ih := tsStage_fst rest (tsOf p)
      unfold tsStage at ih
      cases hf : tsBadIdx (tsOf p) (rest.map tsOf) with
      | some i =>
        rw [hf] at ih
        simp only [Option.map_some', List.take_succ_cons, monoRun, if_pos hle,
          List.cons.injEq, true_and]
        exact ih
      | none =>
        rw [hf] at ih
        simp only [Option.map_none', monoRun, if_pos hle, List.cons.injEq, true_and]
        exact ih

theorem monoRun_length_le : ∀ (lastTs : ℕ) (ps : List NrdPacket),
    (monoRun lastTs ps).length ≤ ps.length
  | lastTs, [] => le_refl _
  | lastTs, p :: rest => by
    unfold monoRun
    by_cases h : lastTs ≤ tsOf p
    · rw [if_pos h]
      simpa using monoRun_length_le (tsOf p) rest
    · rw [if_neg h]
      simp

theorem tsStage_snd : ∀ (ps : List NrdPacket) (lastTs : ℕ),
    (tsStage lastTs ps).2 =
      if (monoRun lastTs ps).length < ps.length then some ((monoRun lastTs ps).length)
      else none
  | [], _ => rfl
  | p :: rest, lastTs => by
    unfold tsStage
    rw [List.map_cons, tsBadIdx_cons]
    by_cases h : lastTs > tsOf p
    · rw [if_pos h]
      simp [monoRun, Nat.not_le.mpr h]
    · rw [if_neg h]
      have hle : lastTs ≤ tsOf p := Nat.not_lt.mp h
      have ih := tsStage_snd rest (tsOf p)
      unfold tsStage at ih
      cases hf : tsBadIdx (tsOf p) (rest.map tsOf) with
      | some i =>
        rw [hf] at ih
        have hlt : i < rest.length := by
          have := tsBadIdx_lt (tsOf p) (rest.map tsOf) i hf
          simpa using this
        have hlen : (monoRun (tsOf p) rest).length = i := by
          by_cases hc : (monoRun (tsOf p) rest).length < rest.length
          · rw [if_pos hc] at ih
            exact (Option.some.injEq _ _ ▸ ih.symm).symm ▸ rfl
          · rw [if_neg hc] at ih
            exact absurd ih (by simp)
        simp only [Option.map_some', monoRun, if_pos hle, List.length_cons, hlen]
        rw [if_pos (by omega)]
      | none =>
        rw [hf] at ih
        have hlen : (monoRun (tsOf p) rest).length = rest.length := by
          by_cases hc : (monoRun (tsOf p) rest).length < rest.length
          · rw [if_pos hc] at ih
            exact absurd ih (by simp)
          · have := monoRun_length_le (tsOf p) rest
            omega
        simp only [Option.map_none', monoRun, if_pos hle, List.length_cons, hlen]
        rw [if_neg (by omega)]

theorem takeWhile_four (s1 s2 s3 s4 : NrdPacket → Bool) : ∀ l : List NrdPacket,
    (((l.takeWhile s1).takeWhile s2).takeWhile s3).takeWhile s4 =
      l.takeWhile (fun a => s1 a && (s2 a && (s3 a && s4 a)))
  | [] => rfl
  | a :: l => by
    by_cases h1 : s1 a <;> by_cases h2 : s2 a <;> by_cases h3 : s3 a <;> by_cases h4 : s4 a <;>
      simp [List.takeWhile_cons, h1, h2, h3, h4, takeWhile_four s1 s2 s3 s4 l]

theorem monoRun_takeWhile (channels : ℕ) : ∀ (ps : List NrdPacket) (lastTs : ℕ),
    monoRun lastTs (ps.takeWhile (packetStructOkB channels)) = goodRun channels lastTs ps
  | [], _ => rfl
  | p :: rest, lastTs => by
    by_cases hs : packetStructOkB channels p
    · rw [List.takeWhile_cons_of_pos hs]
      unfold monoRun goodRun
      by_cases hle : lastTs ≤ tsOf p
      · simp [hs, hle, monoRun_takeWhile channels rest (tsOf p)]
      · simp [hs, hle]
    · rw [List.takeWhile_cons_of_neg hs]
      unfold goodRun
      simp [monoRun, hs]

theorem guardedTrunc_fst (ok : NrdPacket → Bool) (l : List NrdPacket) :
    (if l.length > 0 then truncFirstFail ok l else (l, false)).1 = l.takeWhile ok := by
  cases l with
  | nil => simp
  | cons a l =>
    rw [if_pos (by simp)]
    exact truncFirstFail_fst ok (a :: l)

theorem guardedTs_fst (lastTs : ℕ) (l : List NrdPacket) :
    (if l.length > 0 then tsStage lastTs l else (l, none)).1 = monoRun lastTs l := by
  cases l with
  | nil => simp [monoRun]
  | cons a l =>
    rw [if_pos (by simp)]
    exact tsStage_fst (a :: l) lastTs

theorem validateBatch_accepted (channels lastTs : ℕ) (ps : List NrdPacket) :
    (validateBatch channels lastTs ps).accepted = goodRun channels lastTs ps := by
  show (if _ then tsStage lastTs _ else (_, none)).1 = _
  rw [guardedTs_fst, guardedTrunc_fst, guardedTrunc_fst, guardedTrunc_fst,
    truncFirstFail_fst, takeWhile_four]
  exact monoRun_takeWhile channels ps lastTs

theorem xor_left_comm (a b c : ℕ) : a ^^^ (b ^^^ c) = b ^^^ (a ^^^ c) := by
  rw [← Nat.xor_assoc, Nat.xor_comm a b, Nat.xor_assoc]

theorem xor_cancel_left (a x : ℕ) : a ^^^ (a ^^^ x) = x := by
  rw [← Nat.xor_assoc, Nat.xor_self, Nat.zero_xor]

theorem foldl_xor_shift : ∀ (l : List ℕ) (a : ℕ),
    l.foldl (fun x y => x ^^^ y) a = a ^^^ l.foldl (fun x y => x ^^^ y) 0
  | [], a => by simp
  | b :: l, a => by
    simp only [List.foldl_cons]
    rw [foldl_xor_shift l (a ^^^ b), foldl_xor_shift l (0 ^^^ b)]
    simp [Nat.xor_assoc]

theorem xorFold_cons (a : ℕ) (l : List ℕ) : xorFold (a :: l) = a ^^^ xorFold l := by
  unfold xorFold
  simp only [List.foldl_cons]
  rw [foldl_xor_shift]
  simp

theorem xorFold_append (l1 l2 : List ℕ) :
    xorFold (l1 ++ l2) = xorFold l1 ^^^ xorFold l2 := by
  unfold xorFold
  rw [List.foldl_append, foldl_xor_shift]

theorem xorFold_set : ∀ (l : List ℕ) (i v : ℕ), i < l.length →
    xorFold (l.set i v) = (xorFold l ^^^ l.getD i 0) ^^^ v
  | [], i, v => by simp
  | a :: l, 0, v => fun _ => by
    simp only [List.set_cons_zero, xorFold_cons, List.getD_cons_zero]
    rw [Nat.xor_assoc, Nat.xor_comm a (xorFold l), Nat.xor_assoc, xor_cancel_left,
      Nat.xor_comm]
  | a :: l, i + 1, v => fun h => by
    simp only [List.set_cons_succ, xorFold_cons, List.getD_cons_succ]
    rw [xorFold_set l i v (by simpa using h)]
    simp [Nat.xor_assoc, Nat.xor_comm, xor_left_comm]

theorem packetWords_length (p : NrdPacket) :
    (packetWords p).length = 8 + p.extra.length + p.data.length := by
  simp [packetWords]
  omega

theorem packetWords_setWord (p : NrdPacket) (i v : ℕ)
    (h : i < (packetWords p).length) :
    packetWords (setWord p i v) = (packetWords p).set i v := by
  rw [packetWords_length] at h
  unfold setWord
  split_ifs with h0 h1 h2 h3 h4 h5 h6 h7 h8
  · subst h0; rfl
  · subst h1; rfl
  · subst h2; rfl
  · subst h3; rfl
  · subst h4; rfl
  · subst h5; rfl
  · subst h6; rfl
  · -- extra zone: 7 ≤ i < 7 + extra.length
    obtain ⟨k, rfl⟩ : ∃ k, i = k + 7 := ⟨i - 7, by omega⟩
    have hk : k < p.extra.length := by omega
    simp only [packetWords, List.set_cons_succ]
    rw [List.set_append_left _ _ (by simp [hk]; omega),
      List.set_append_left _ _ hk]
    simp [Nat.add_sub_cancel]
  · -- data zone
    obtain ⟨k, rfl⟩ : ∃ k, i = k + 7 := ⟨i - 7, by omega⟩
    have hk1 : p.extra.length ≤ k := by omega
    have hk2 : k - p.extra.length < p.data.length := by omega
    simp only [packetWords, List.set_cons_succ]
    rw [List.set_append_left _ _ (by simp; omega),
      List.set_append_right _ _ hk1]
    simp [Nat.add_sub_cancel]
  · -- crc zone: i = 7 + extra.length + data.length
    obtain ⟨k, rfl⟩ : ∃ k, i = k + 7 := ⟨i - 7, by omega⟩
    have hk : k = p.extra.length + p.data.length := by omega
    simp only [packetWords, List.set_cons_succ]
    rw [List.set_append_right _ _ (by simp; omega)]
    have : k - (p.extra ++ p.data).length = 0 := by simp; omega
    rw [this]
    rfl

theorem packetWords_eq_noCrc (p : NrdPacket) :
    packetWords p = packetWordsNoCrc p ++ [p.crc] := by
  simp [packetWords, packetWordsNoCrc]

theorem crcOkB_setCrc (p : NrdPacket) :
    crcOkB { p with crc := xorFold (packetWordsNoCrc p) } = true := by
  unfold crcOkB
  rw [packetWords_eq_noCrc, xorFold_append]
  have hsame : packetWordsNoCrc { p with crc := xorFold (packetWordsNoCrc p) } =
      packetWordsNoCrc p := rfl
  rw [hsame]
  simp [xorFold_cons, xorFold, Nat.xor_self]

theorem crcOkB_flip (p : NrdPacket) (i j : ℕ) (hi : i < (packetWords p).length)
    (hok : crcOkB p = true) : crcOkB (flipBit p i j) = false := by
  have hfold : xorFold (packetWords p) = 0 := by simpa [crcOkB] using hok
  have hpow : (2 : ℕ) ^ j ≠ 0 := (Nat.pow_pos (by norm_num)).ne'
  unfold crcOkB flipBit
  rw [packetWords_setWord p i _ hi, xorFold_set _ i _ hi, hfold]
  simp [xor_cancel_left, hpow]

theorem goodRun_length_le (channels : ℕ) : ∀ (lastTs : ℕ) (ps : List NrdPacket),
    (goodRun channels lastTs ps).length ≤ ps.length
  | _, [] => le_refl _
  | lastTs, p :: rest => by
    unfold goodRun
    by_cases h : packetStructOkB channels p && decide (lastTs ≤ tsOf p)
    · rw [if_pos h]
      simpa using goodRun_length_le channels (tsOf p) rest
    · rw [if_neg h]
      simp

theorem stepBatch_out_le (channels : ℕ) (st : ExtState) (b : List NrdPacket) :
    (stepBatch channels st b).2.length ≤ b.length := by
  show (validateBatch channels st.lastTs b).accepted.length ≤ b.length
  rw [validateBatch_accepted]
  exact goodRun_length_le channels st.lastTs b

theorem stepBatch_pktCnt (channels : ℕ) (st : ExtState) (b : List NrdPacket) :
    (stepBatch channels st b).1.pktCnt = st.pktCnt + (stepBatch channels st b).2.length :=
  rfl

theorem runLoop_budget_gt (channels : ℕ) (mp : Option ℕ) (budget : ℕ) :
    ∀ (batches : List (List NrdPacket)) (st : ExtState),
    (runLoop channels mp budget st batches).reason = .budget →
    budget < errSum (runLoop channels mp budget st batches).state
  | [], st => by simp [runLoop]
  | b :: rest, st => by
    unfold runLoop
    by_cases hb : b.length = 0
    · simp [hb]
    · rw [if_neg hb]
      generalize hs : stepBatch channels st b = s
      cases mp with
      | none =>
        by_cases hbud : s.1.tsErr + s.1.crcErr + s.1.stxErr > budget
        · simp [hbud, errSum]
        · simp only [hbud, if_false]
          intro hr
          have := runLoop_budget_gt channels none budget rest s.1
          simp only [] at this ⊢
          exact this hr
      | some m =>
        by_cases hcap : s.1.pktCnt ≥ m
        · simp [hcap]
        · by_cases hbud : s.1.tsErr + s.1.crcErr + s.1.stxErr > budget
          · simp [hcap, hbud, errSum]
          · simp only [hcap, decide_eq_true_eq, if_neg, hbud, if_false, decide_eq_false_iff_not]
            intro hr
            exact runLoop_budget_gt channels (some m) budget rest s.1 hr

theorem runLoop_none_budget_iff (channels budget : ℕ) :
    ∀ (batches : List (List NrdPacket)) (st : ExtState), errSum st ≤ budget →
    ((runLoop channels none budget st batches).reason = .budget ↔
      budget < errSum (runLoop channels none budget st batches).state)
  | [], st => fun h => by
    show StopReason.eof = .budget ↔ budget < errSum st
    constructor
    · intro hr
      exact absurd hr (by simp)
    · intro hr
      exact absurd hr (by omega)
  | b :: rest, st => fun h => by
    unfold runLoop
    by_cases hb : b.length = 0
    · rw [if_pos hb]
      show StopReason.eof = .budget ↔ budget < errSum st
      constructor
      · intro hr
        exact absurd hr (by simp)
      · intro hr
        exact absurd hr (by omega)
    · rw [if_neg hb]
      generalize hs : stepBatch channels st b = s
      by_cases hbud : s.1.tsErr + s.1.crcErr + s.1.stxErr > budget
      · simp [hbud, errSum]
      · simp only [hbud, if_false, decide_eq_false_iff_not]
        have ih := runLoop_none_budget_iff channels budget rest s.1 (by unfold errSum; omega)
        simpa using ih

theorem runLoop_cap_ge (channels m budget : ℕ) :
    ∀ (batches : List (List NrdPacket)) (st : ExtState),
    (runLoop channels (some m) budget st batches).reason = .cap →
    m ≤ (runLoop channels (some m) budget st batches).state.pktCnt
  | [], st => by simp [runLoop]
  | b :: rest, st => by
    unfold runLoop
    by_cases hb : b.length = 0
    · simp [hb]
    · rw [if_neg hb]
      generalize hs : stepBatch channels st b = s
      by_cases hcap : s.1.pktCnt ≥ m
      · simp [hcap]
      · by_cases hbud : s.1.tsErr + s.1.crcErr + s.1.stxErr > budget
        · simp [hcap, hbud]
        · simp only [hcap, hbud, if_false, decide_eq_false_iff_not, decide_eq_true_eq]
          intro hr
          exact runLoop_cap_ge channels m budget rest s.1 hr

theorem runLoop_cap_overshoot (channels m budget k : ℕ) :
    ∀ (batches : List (List NrdPacket)) (st : ExtState),
    st.pktCnt < m → (∀ b ∈ batches, b.length ≤ k) →
    (runLoop channels (some m) budget st batches).reason = .cap →
    (runLoop channels (some m) budget st batches).state.pktCnt < m + k
  | [], st => fun hm _ => by simp [runLoop]
  | b :: rest, st => fun hm hk => by
    unfold runLoop
    by_cases hb : b.length = 0
    · simp [hb]
    · rw [if_neg hb]
      generalize hs : stepBatch channels st b = s
      have hcnt : s.1.pktCnt = st.pktCnt + s.2.length := by
        rw [← hs]
        exact stepBatch_pktCnt channels st b
      have hlen : s.2.length ≤ b.length := by
        rw [← hs]
        exact stepBatch_out_le channels st b
      have hbk : b.length ≤ k := hk b (by simp)
      by_cases hcap : s.1.pktCnt ≥ m
      · simp only [hcap, decide_eq_true_eq, if_pos]
        intro _
        omega
      · by_cases hbud : s.1.tsErr + s.1.crcErr + s.1.stxErr > budget
        · simp [hcap, hbud]
        · simp only [hcap, hbud, if_false, decide_eq_false_iff_not, decide_eq_true_eq]
          intro hr
          exact runLoop_cap_overshoot channels m budget k rest s.1 (by omega)
            (fun x hx => hk x (by simp [hx])) hr

theorem seekPacketAux_shift : ∀ (l : List ℕ) (pos : ℕ),
    seekPacketAux pos l = pos + seekPacketAux 0 l
  | [], pos => by simp [seekPacketAux]
  | [a], pos => by simp [seekPacketAux]
  | [a, b], pos => by simp [seekPacketAux]
  | [a, b, c], pos => by simp [seekPacketAux]
  | a :: b :: c :: d :: rest, pos => by
    by_cases h : a = 0 ∧ b = 8 ∧ c = 0 ∧ d = 0
    · simp [seekPacketAux, h]
    · simp only [seekPacketAux, h, if_false]
      rw [seekPacketAux_shift rest (pos + 4), seekPacketAux_shift rest (0 + 4)]
      omega

theorem take4_marker_shape : ∀ (l : List ℕ), l.take 4 = markerBytes →
    ∃ t, l = 0 :: 8 :: 0 :: 0 :: t := by
  intro l h
  match l with
  | [] => simp [markerBytes] at h
  | [a] => simp [markerBytes] at h
  | [a, b] => simp [markerBytes] at h
  | [a, b, c] => simp [markerBytes] at h
  | a :: b :: c :: d :: t =>
    simp only [List.take_succ_cons, List.take_zero, markerBytes, List.cons.injEq,
      and_true] at h
    exact ⟨t, by simp [h.1, h.2.1, h.2.2.1, h.2.2.2]⟩

theorem exists_four_cons : ∀ (l : List ℕ), 4 ≤ l.length →
    ∃ a b c d t, l = a :: b :: c :: d :: t := by
  intro l h
  match l with
  | a :: b :: c :: d :: t => exact ⟨a, b, c, d, t, rfl⟩
  | [] => simp at h
  | [_] => simp at h
  | [_, _] => simp at h
  | [_, _, _] => simp at h

theorem seekPacket_aligned : ∀ (K : ℕ) (s : List ℕ), 4 ∣ K →
    (s.drop K).take 4 = markerBytes →
    (∀ j, j < K → 4 ∣ j → (s.drop j).take 4 ≠ markerBytes) →
    seek_packet s = K := by
  intro K
  induction K using Nat.strong_induction_on with
  | _ K ih =>
    intro s h4 hm hpre
    rcases Nat.eq_zero_or_pos K with h0 | hKpos
    · subst h0
      obtain ⟨t, ht⟩ := take4_marker_shape s (by simpa using hm)
      rw [ht]
      simp [seek_packet, seekPacketAux]
    · have hK4 : 4 ≤ K := by
        rcases h4 with ⟨c, rfl⟩
        omega
      obtain ⟨K', rfl⟩ : ∃ K', K = K' + 4 := ⟨K - 4, by omega⟩
      have hlen : 4 ≤ (s.drop (K' + 4)).length := by
        obtain ⟨t, ht⟩ := take4_marker_shape _ hm
        rw [ht]
        simp
      have hslen : K' + 4 + 4 ≤ s.length := by
        rw [List.length_drop] at hlen
        omega
      obtain ⟨a, b, c, d, t, rfl⟩ := exists_four_cons s (by omega)
      have hnotm : ¬(a = 0 ∧ b = 8 ∧ c = 0 ∧ d = 0) := by
        intro hc
        exact hpre 0 (by omega) ⟨0, rfl⟩
          (by simp [markerBytes, hc.1, hc.2.1, hc.2.2.1, hc.2.2.2])
      have hstep : seek_packet (a :: b :: c :: d :: t) = 4 + seek_packet t := by
        unfold seek_packet
        simp only [seekPacketAux, hnotm, if_false]
        exact seekPacketAux_shift t (0 + 4)
      have hdrop : ∀ j, (a :: b :: c :: d :: t).drop (j + 4) = t.drop j := by
        intro j
        rfl
      have hrec : seek_packet t = K' := by
        apply ih K' (by omega) t
        · rcases h4 with ⟨c', hc'⟩
          exact ⟨c' - 1, by omega⟩
        · rw [← hdrop K']
          exact hm
        · intro j hj hj4
          have := hpre (j + 4) (by omega) (by omega)
          rw [hdrop j] at this
          exact this
      rw [hstep, hrec]
      omega

theorem pairSum_split {M : Type} [AddCommMonoid M] (f : ℕ → M) :
    ∀ (G : List ℕ) (a n : ℕ),
    (∀ g ∈ G, a ≤ g ∧ g + 1 < n) → G.Pairwise (· < ·) →
    ((((a :: (G.map (· + 1) ++ [n])).zip ((a :: (G.map (· + 1) ++ [n])).tail)).map
        (fun bp => ((List.range' bp.1 (bp.2 - 1 - bp.1)).map f).sum)).sum)
      = ((List.range' a (n - 1 - a)).map (fun i => if i ∈ G then 0 else f i)).sum
  | [], a, n => fun _ _ => by
    simp
  | g :: G', a, n => fun hb hp => by
    obtain ⟨hag, hgn⟩ := hb g (List.mem_cons_self g G')
    have hb' : ∀ g' ∈ G', g + 1 ≤ g' ∧ g' + 1 < n := by
      intro g' hg'
      have h1 := (List.pairwise_cons.mp hp).1 g' hg'
      have h2 := hb g' (List.mem_cons_of_mem g hg')
      omega
    have hp' : G'.Pairwise (· < ·) := (List.pairwise_cons.mp hp).2
    have IH := pairSum_split f G' (g + 1) n hb' hp'
    -- decompose the left-hand side
    have hzip : ((a :: (((g :: G').map (· + 1)) ++ [n])).zip
          ((a :: (((g :: G').map (· + 1)) ++ [n])).tail))
        = (a, g + 1) :: (((g + 1) :: (G'.map (· + 1) ++ [n])).zip
            (((g + 1) :: (G'.map (· + 1) ++ [n])).tail)) := by
      simp [List.zip_cons_cons]
    rw [hzip, List.map_cons, List.sum_cons, IH]
    -- decompose the right-hand side
    have h1 : List.range' a (n - 1 - a) = List.range' a (g - a) ++ List.range' g (n - 1 - g) := by
      rw [show n - 1 - a = (n - 1 - g) + (g - a) by omega, ← List.range'_append_1 a (g - a),
        show a + (g - a) = g by omega]
    have h2 : List.range' g (n - 1 - g) = g :: List.range' (g + 1) (n - 1 - (g + 1)) := by
      rw [show n - 1 - g = (n - 1 - (g + 1)) + 1 by omega, List.range'_succ]
    rw [h1, h2, List.map_append, List.sum_append, List.map_cons, List.sum_cons,
      if_pos (List.mem_cons_self g G')]
    have hA : (List.range' a (g - a)).map (fun i => if i ∈ g :: G' then 0 else f i)
        = (List.range' a (g - a)).map f := by
      apply List.map_congr_left
      intro i hi
      have hi' := List.mem_range'_1.mp hi
      have hnot : i ∉ g :: G' := by
        intro hmem
        rcases List.mem_cons.mp hmem with rfl | hmem'
        · omega
        · have := (hb' i hmem').1
          omega
      rw [if_neg hnot]
    have hC : (List.range' (g + 1) (n - 1 - (g + 1))).map
          (fun i => if i ∈ g :: G' then 0 else f i)
        = (List.range' (g + 1) (n - 1 - (g + 1))).map (fun i => if i ∈ G' then 0 else f i) := by
      apply List.map_congr_left
      intro i hi
      have hi' := List.mem_range'_1.mp hi
      have hne : ¬(i = g) := by omega
      simp only [List.mem_cons, hne, false_or]
    rw [hA, hC, Nat.add_sub_cancel, zero_add]

theorem sum_ite_mem_filter {M : Type} [AddCommMonoid M] (G : List ℕ) (f : ℕ → M) :
    ∀ l : List ℕ,
    (l.map (fun i => if i ∈ G then 0 else f i)).sum =
      ((l.filter (fun i => !(decide (i ∈ G)))).map f).sum
  | [] => rfl
  | a :: l => by
    by_cases h : a ∈ G <;>
      simp [h, sum_ite_mem_filter G f l]

theorem sum_map_one : ∀ l : List ℕ, (l.map (fun _ => (1 : ℕ))).sum = l.length
  | [] => rfl
  | a :: l => by
    simp [sum_map_one l]
    omega

theorem dtUs_length (ps : List CscPacket) : (dtUs ps).length = ps.length - 1 := by
  simp [dtUs, tsUs]

theorem gapIdx_bounds (ps : List CscPacket) :
    ∀ g ∈ gapIdx ps, 0 ≤ g ∧ g + 1 < ps.length := by
  intro g hg
  have := List.mem_filter.mp hg
  have hr := List.mem_range.mp this.1
  rw [dtUs_length] at hr
  omega

theorem gapIdx_pairwise (ps : List CscPacket) : (gapIdx ps).Pairwise (· < ·) :=
  (List.pairwise_lt_range _).filter _

theorem estimFsSum_unguarded (ps : List CscPacket) :
    estimFsSum ps = ((boundPairs ps).map (fun ab => pairRateSum ps ab.1 ab.2)).sum := by
  unfold estimFsSum
  apply congrArg List.sum
  apply List.map_congr_left
  intro ab _
  by_cases h : ab.2 - ab.1 > 1
  · rw [if_pos h]
  · rw [if_neg h]
    unfold pairRateSum
    rw [show ab.2 - 1 - ab.1 = 0 by omega]
    simp

theorem nSamps_unguarded (ps : List CscPacket) :
    nSamps ps = ((boundPairs ps).map (fun ab => ab.2 - 1 - ab.1)).sum := by
  unfold nSamps
  apply congrArg List.sum
  apply List.map_congr_left
  intro ab _
  by_cases h : ab.2 - ab.1 > 1
  · rw [if_pos h]
  · rw [if_neg h]
    omega

theorem gapIdx_mem_iff (ps : List CscPacket) (i : ℕ) (hi : i ∈ List.range (ps.length - 1)) :
    i ∈ gapIdx ps ↔ (dtUs ps).getD i 0 > packetDurationUs ps := by
  constructor
  · intro hmem
    exact of_decide_eq_true (List.mem_filter.mp hmem).2
  · intro h
    refine List.mem_filter.mpr ⟨?_, decide_eq_true h⟩
    rw [List.mem_range] at hi ⊢
    rw [dtUs_length]
    exact hi

theorem filter_nonGap (ps : List CscPacket) :
    (List.range' 0 (ps.length - 1 - 0)).filter (fun i => !(decide (i ∈ gapIdx ps)))
      = nonGapIdx ps := by
  unfold nonGapIdx
  rw [dtUs_length, ← List.range_eq_range']
  apply List.filter_congr
  intro i hi
  by_cases h : (dtUs ps).getD i 0 > packetDurationUs ps
  · have hmem : i ∈ gapIdx ps := (gapIdx_mem_iff ps i hi).mpr h
    rw [decide_eq_true hmem, decide_eq_false (not_le.mpr h)]
    rfl
  · have hmem : i ∉ gapIdx ps := fun hc => h ((gapIdx_mem_iff ps i hi).mp hc)
    rw [decide_eq_false hmem, decide_eq_true (not_lt.mp h)]
    rfl

theorem estimFsSum_eq_filter (ps : List CscPacket) :
    estimFsSum ps = ((nonGapIdx ps).map (boundaryRate ps)).sum := by
  rw [estimFsSum_unguarded]
  have h := pairSum_split (boundaryRate ps) (gapIdx ps) 0 ps.length
    (gapIdx_bounds ps) (gapIdx_pairwise ps)
  have e1 : ((boundPairs ps).map (fun ab => pairRateSum ps ab.1 ab.2)).sum
      = ((List.range' 0 (ps.length - 1 - 0)).map
          (fun i => if i ∈ gapIdx ps then 0 else boundaryRate ps i)).sum := h
  rw [e1, sum_ite_mem_filter, filter_nonGap]

theorem nSamps_eq_filter (ps : List CscPacket) :
    nSamps ps = (nonGapIdx ps).length := by
  rw [nSamps_unguarded]
  have h := pairSum_split (fun _ => (1 : ℕ)) (gapIdx ps) 0 ps.length
    (gapIdx_bounds ps) (gapIdx_pairwise ps)
  have e0 : ((boundPairs ps).map (fun ab => ab.2 - 1 - ab.1)).sum
      = ((boundPairs ps).map
          (fun bp => ((List.range' bp.1 (bp.2 - 1 - bp.1)).map (fun _ => (1 : ℕ))).sum)).sum := by
    apply congrArg
    apply List.map_congr_left
    intro ab _
    rw [sum_map_one, List.length_range']
  rw [e0]
  have e1 : ((boundPairs ps).map
        (fun bp => ((List.range' bp.1 (bp.2 - 1 - bp.1)).map (fun _ => (1 : ℕ))).sum)).sum
      = ((List.range' 0 (ps.length - 1 - 0)).map
          (fun i => if i ∈ gapIdx ps then 0 else 1)).sum := h
  rw [e1, sum_ite_mem_filter, filter_nonGap, sum_map_one]

theorem padRec_getD : ∀ (pairs : List (ℕ × ℕ)) (ts0 : ℕ) (fs : ℚ) (cumN : ℤ) (n : ℕ),
    n < pairs.length →
    0 ≤ (((pairs.getD n (0, 0)).1 : ℚ) - (ts0 : ℚ)) * (1 / 1000000) * fs
        - ((emittedBefore ts0 fs pairs cumN n : ℤ) : ℚ) →
    (padRec ts0 fs pairs cumN).getD n 0
      = ⌊(((pairs.getD n (0, 0)).1 : ℚ) - (ts0 : ℚ)) * (1 / 1000000) * fs⌋
        - emittedBefore ts0 fs pairs cumN n
  | [], ts0, fs, cumN, n => by
    intro h
    simp at h
  | (tsn, sz) :: rest, ts0, fs, cumN, 0 => by
    intro _ hpos
    have hem : emittedBefore ts0 fs ((tsn, sz) :: rest) cumN 0 = cumN := by
      simp [emittedBefore]
    rw [hem] at hpos ⊢
    simp only [List.getD_cons_zero] at hpos ⊢
    show pyInt (((tsn : ℚ) - (ts0 : ℚ)) * (1 / 1000000) * fs - (cumN : ℚ)) = _
    unfold pyInt
    rw [if_pos hpos, Int.floor_sub_int]
  | (tsn, sz) :: rest, ts0, fs, cumN, n + 1 => by
    intro hn hpos
    have hlen : n < rest.length := by
      simpa using hn
    have hem : emittedBefore ts0 fs ((tsn, sz) :: rest) cumN (n + 1)
        = emittedBefore ts0 fs rest
            (cumN + pyInt (((tsn : ℚ) - (ts0 : ℚ)) * (1 / 1000000) * fs - (cumN : ℚ)) + sz) n := by
      simp [emittedBefore, padRec, List.take_succ_cons]
      ring
    have hgd : ((((tsn, sz) :: rest).getD (n + 1) (0, 0)).1 : ℚ) = ((rest.getD n (0, 0)).1 : ℚ) := by
      simp
    rw [hem] at hpos
    have ih := padRec_getD rest ts0 fs
      (cumN + pyInt (((tsn : ℚ) - (ts0 : ℚ)) * (1 / 1000000) * fs - (cumN : ℚ)) + sz) n hlen
      (by rw [hgd] at hpos; exact hpos)
    show (padRec ts0 fs rest _).getD n 0 = _
    rw [hem, hgd]
    exact ih


/-! # Claim theorems -/

/-- C1: the claim states that for every output container of
`nrd2mda_epochs` the header placeholder is finally overwritten with the
true count of packet records written to that container.  The code instead
adds the whole batch size (`nt['pkt_cnt'] += these_packets.size`, line
565) whenever at least one packet of the batch falls inside the epoch,
while only the matching packets are written.  Concretely: one epoch with
bounds `[0, 10]` and a single decoded batch of two packets with
timestamps 5 and 20 writes one packet record but puts 2 into the header
placeholder. -/
theorem C1_epoch_header_count :
    nrd2mdaModel [(0, 10)] [[pkAt 5, pkAt 20]] = [(2, 1)] ∧ (2 : ℕ) ≠ (1 : ℕ) := by
  constructor
  · decide
  · decide

/-- C2 counterexample: on four packets (nominal rate 512, boundary
spacings 0.5 s, 1 s and a 8.5 s gap) the code produces
`Fs = (512/0.5 + 512/1) / 2 = 768`, while the claimed formula - the sum
of valid samples divided by the sum of elapsed seconds over the same
intra-run boundaries - gives `1024 / 1.5 = 2048/3`. -/
theorem C2_counterexample :
    gapIdx cscEx = [2] ∧ readCscFs cscEx = 768 ∧ specGlobalRate cscEx = 2048 / 3 ∧
      readCscFs cscEx ≠ specGlobalRate cscEx := by
  refine ⟨?_, ?_, ?_, ?_⟩
  · norm_num [gapIdx, dtUs, tsUs, cscEx, packetDurationUs, List.range_succ]
  · norm_num [readCscFs, estimFsSum, nSamps, boundPairs, boundsList, gapIdx, dtUs, tsUs,
      nsList, packetDurationUs, pairRateSum, cscEx, List.range_succ, List.range']
  · norm_num [specGlobalRate, nonGapIdx, dtUs, tsUs, nsList, packetDurationUs, cscEx,
      List.range_succ]
  · norm_num [readCscFs, estimFsSum, nSamps, boundPairs, boundsList, gapIdx, dtUs, tsUs,
      nsList, packetDurationUs, pairRateSum, specGlobalRate, nonGapIdx, cscEx,
      List.range_succ, List.range']

/-- C2 (amended): in the gapped branch of `read_csc` the estimated global
rate is the **mean of the per-boundary instantaneous rates** - the sum of
`Ns[i] / (dt[i] * 1e-6)` over all intra-run consecutive-packet
boundaries, divided by the **number** of those boundaries (gap boundaries
excluded) - not the sum of valid samples divided by the sum of elapsed
seconds. -/
theorem C2_rate_mean_of_boundary_rates (ps : List CscPacket) :
    readCscFs ps = ((nonGapIdx ps).map (boundaryRate ps)).sum /
      ((nonGapIdx ps).length : ℚ) := by
  unfold readCscFs
  rw [estimFsSum_eq_filter, nSamps_eq_filter]

/-- C3 counterexample: with the post-gap packet at 10.00099 s and
estimated rate 768 the code inserts `int(7680.76032 - 1536) = 6144`
zeros, while the claimed formula `round(elapsed * rate) - cum` gives
`7681 - 1536 = 6145`. -/
theorem C3_counterexample :
    readCscPads cscEx3 = [6144] ∧ specRoundPadHead cscEx3 = 6145 ∧
      ((6144 : ℤ) ≠ 6145) := by
  refine ⟨?_, ?_, ?_⟩
  · norm_num [readCscPads, padRec, padPairs, sectionSizes, boundPairs, boundsList, gapIdx,
      dtUs, tsUs, packetDurationUs, readCscFs, estimFsSum, nSamps, pairRateSum, nsList,
      pyInt, cscEx3, List.range_succ, List.range']
  · norm_num [specRoundPadHead, padPairs, sectionSizes, boundPairs, boundsList, gapIdx,
      dtUs, tsUs, packetDurationUs, readCscFs, estimFsSum, nSamps, pairRateSum, nsList,
      cscEx3, List.range_succ, List.range', round_eq, Int.floor_eq_iff]
  · decide

/-- C3 (amended): each zero-run inserted by the gapped branch of
`read_csc` equals `⌊elapsed_seconds_since_start * rate⌋` minus the
cumulative sample count already emitted - Python `int()` truncation
(floor, in the non-negative case), not `round`. -/
theorem C3_pad_floor_minus_cum (ps : List CscPacket) (n : ℕ)
    (hn : n < (padPairs ps).length)
    (hpos : 0 ≤ ((((padPairs ps).getD n (0, 0)).1 : ℚ) - ((tsUs ps).getD 0 0 : ℚ))
        * (1 / 1000000) * readCscFs ps
        - ((emittedBefore ((tsUs ps).getD 0 0) (readCscFs ps) (padPairs ps)
            ((sectionSizes ps).getD 0 0 : ℤ) n : ℤ) : ℚ)) :
    (readCscPads ps).getD n 0
      = ⌊((((padPairs ps).getD n (0, 0)).1 : ℚ) - ((tsUs ps).getD 0 0 : ℚ))
          * (1 / 1000000) * readCscFs ps⌋
        - emittedBefore ((tsUs ps).getD 0 0) (readCscFs ps) (padPairs ps)
            ((sectionSizes ps).getD 0 0 : ℤ) n := by
  unfold readCscPads
  exact padRec_getD (padPairs ps) ((tsUs ps).getD 0 0) (readCscFs ps)
    ((sectionSizes ps).getD 0 0 : ℤ) n hn hpos

/-- C3 witness: the amended claim applied to the concrete gapped record. -/
theorem C3_witness :
    (0 < (padPairs cscEx3).length)
    ∧ (0 ≤ ((((padPairs cscEx3).getD 0 (0, 0)).1 : ℚ) - ((tsUs cscEx3).getD 0 0 : ℚ))
        * (1 / 1000000) * readCscFs cscEx3
        - ((emittedBefore ((tsUs cscEx3).getD 0 0) (readCscFs cscEx3) (padPairs cscEx3)
            ((sectionSizes cscEx3).getD 0 0 : ℤ) 0 : ℤ) : ℚ))
    ∧ (readCscPads cscEx3).getD 0 0
      = ⌊((((padPairs cscEx3).getD 0 (0, 0)).1 : ℚ) - ((tsUs cscEx3).getD 0 0 : ℚ))
          * (1 / 1000000) * readCscFs cscEx3⌋
        - emittedBefore ((tsUs cscEx3).getD 0 0) (readCscFs cscEx3) (padPairs cscEx3)
            ((sectionSizes cscEx3).getD 0 0 : ℤ) 0 := by
  have h1 : 0 < (padPairs cscEx3).length := by
    norm_num [padPairs, sectionSizes, boundPairs, boundsList, gapIdx, dtUs, tsUs,
      packetDurationUs, cscEx3, List.range_succ, List.range']
  have h2 : 0 ≤ ((((padPairs cscEx3).getD 0 (0, 0)).1 : ℚ) - ((tsUs cscEx3).getD 0 0 : ℚ))
      * (1 / 1000000) * readCscFs cscEx3
      - ((emittedBefore ((tsUs cscEx3).getD 0 0) (readCscFs cscEx3) (padPairs cscEx3)
          ((sectionSizes cscEx3).getD 0 0 : ℤ) 0 : ℤ) : ℚ) := by
    norm_num [emittedBefore, padPairs, sectionSizes, boundPairs, boundsList, gapIdx,
      dtUs, tsUs, packetDurationUs, readCscFs, estimFsSum, nSamps, pairRateSum, nsList,
      cscEx3, List.range_succ, List.range']
  exact ⟨h1, h2, C3_pad_floor_minus_cum cscEx3 0 h1 h2⟩

/-- C4 counterexample: the marker bytes sit at (unaligned) offset 1 of
`unalignedStream`, yet `seek_packet`, which scans in aligned 4-byte
chunks, runs to end of file and reports 8 skipped bytes, not 1. -/
theorem C4_counterexample :
    (unalignedStream.drop 1).take 4 = markerBytes ∧
      seek_packet unalignedStream = 8 ∧ (8 : ℕ) ≠ 1 := by
  refine ⟨?_, ?_, ?_⟩ <;> decide

/-- C4 (amended): if the marker occurs at an offset `K` divisible by 4
and no aligned 4-byte chunk before `K` equals the marker, then
resynchronization started at offset 0 stops with the cursor at exactly
`K` and reports `K` skipped bytes. -/
theorem C4_resync_aligned (K : ℕ) (s : List ℕ) (h4 : 4 ∣ K)
    (hm : (s.drop K).take 4 = markerBytes)
    (hpre : ∀ j, j < K → 4 ∣ j → (s.drop j).take 4 ≠ markerBytes) :
    seek_packet s = K :=
  seekPacket_aligned K s h4 hm hpre

/-- C4 witness: the amended claim at a stream with 4 garbage bytes and
the marker at offset 4. -/
theorem C4_witness :
    (4 ∣ 4) ∧ (alignedStream.drop 4).take 4 = markerBytes ∧
      seek_packet alignedStream = 4 :=
  ⟨by decide, by decide,
    C4_resync_aligned 4 alignedStream (by decide) (by decide) (by decide)⟩

/-- C5: the staged validator always accepts exactly the longest prefix in
which every packet passes the marker, id, size and CRC checks and the
timestamps are non-decreasing from the carried-over watermark (checks
applied in that fixed order, each on the surviving prefix); and a batch
holding, in order, a bad-marker packet, a bad-CRC packet and an
out-of-order-timestamp packet is truncated at the bad-marker packet, with
only the start-marker error flagged. -/
theorem C5_validator_longest_ok_run :
    (∀ channels lastTs ps,
      (validateBatch channels lastTs ps).accepted = goodRun channels lastTs ps)
    ∧ ((pBadMarker.stx == 2048) = false
       ∧ packetStructOkB 1 pBadCrc = false ∧ (pBadCrc.stx == 2048) = true
       ∧ packetStructOkB 1 (pkAt 5) = true ∧ tsOf (pkAt 5) < tsOf pBadCrc
       ∧ (validateBatch 1 0 [pBadMarker, pBadCrc, pkAt 5]).accepted = []
       ∧ (validateBatch 1 0 [pBadMarker, pBadCrc, pkAt 5]).stxBad = true
       ∧ (validateBatch 1 0 [pBadMarker, pBadCrc, pkAt 5]).idBad = false
       ∧ (validateBatch 1 0 [pBadMarker, pBadCrc, pkAt 5]).sizeBad = false
       ∧ (validateBatch 1 0 [pBadMarker, pBadCrc, pkAt 5]).crcBad = false
       ∧ (validateBatch 1 0 [pBadMarker, pBadCrc, pkAt 5]).tsBad = none) :=
  ⟨validateBatch_accepted, by decide⟩

/-- C6: the timestamp stage keeps exactly the longest prefix whose
timestamps are non-decreasing starting from the carried-over watermark
(so a packet is accepted iff its timestamp is at least the last accepted
one, including at position 0), and reports the index of the first
violating packet; on the battery with timestamps `[100, 105, 104, 110]`
the accepted prefix has length 2 and the rejection is the
timestamp-out-of-order kind at index 2. -/
theorem C6_timestamp_stage :
    (∀ lastTs ps, (tsStage lastTs ps).1 = monoRun lastTs ps
      ∧ (tsStage lastTs ps).2 =
          (if (monoRun lastTs ps).length < ps.length
           then some ((monoRun lastTs ps).length) else none))
    ∧ (tsQuad.map tsOf = [100, 105, 104, 110]
       ∧ (validateBatch 1 0 tsQuad).accepted.length = 2
       ∧ (validateBatch 1 0 tsQuad).tsBad = some 2
       ∧ (validateBatch 1 0 tsQuad).stxBad = false
       ∧ (validateBatch 1 0 tsQuad).crcBad = false) :=
  ⟨fun lastTs ps => ⟨tsStage_fst ps lastTs, tsStage_snd ps lastTs⟩, by decide⟩

/-- C7: setting the CRC word of any packet to the XOR of all its other
32-bit words makes the full XOR reduction zero, so the packet passes the
CRC check; and flipping any single bit `j < 32` of any 32-bit word of a
passing packet makes the reduction nonzero, so the packet fails the
check. -/
theorem C7_crc_xor_property (p : NrdPacket) :
    crcOkB { p with crc := xorFold (packetWordsNoCrc p) } = true
    ∧ (∀ i j, i < (packetWords p).length → j < 32 → crcOkB p = true →
        crcOkB (flipBit p i j) = false) :=
  ⟨crcOkB_setCrc p, fun i j hi _hj hok => crcOkB_flip p i j hi hok⟩

/-- C7 witness: the CRC property at a concrete packet, flipping bit 0 of
word 0. -/
theorem C7_witness :
    crcOkB { pkAt 7 with crc := xorFold (packetWordsNoCrc (pkAt 7)) } = true
    ∧ (0 < (packetWords (pkAt 7)).length ∧ (0 : ℕ) < 32 ∧ crcOkB (pkAt 7) = true
       ∧ crcOkB (flipBit (pkAt 7) 0 0) = false) :=
  ⟨(C7_crc_xor_property (pkAt 7)).1,
    by decide, by decide, by decide,
    (C7_crc_xor_property (pkAt 7)).2 0 0 (by decide) (by decide) (by decide)⟩

/-- C8: with no packet cap (`max_pkts = -1`) the extraction loop stops
with the budget reason exactly when the combined marker + CRC +
timestamp-order error count strictly exceeds the budget; with any cap, a
budget stop still implies that the combined count exceeds the budget - in
particular runs whose packet-id or size-field counters alone grow never
stop on the budget. -/
theorem C8_error_budget_gate (channels budget : ℕ) (batches : List (List NrdPacket)) :
    ((runLoop channels none budget initState batches).reason = .budget ↔
      budget < errSum (runLoop channels none budget initState batches).state)
    ∧ (∀ mp, (runLoop channels (some mp) budget initState batches).reason = .budget →
        budget < errSum (runLoop channels (some mp) budget initState batches).state) :=
  ⟨runLoop_none_budget_iff channels budget batches initState (Nat.zero_le budget),
    fun mp => runLoop_budget_gt channels (some mp) budget batches initState⟩

/-- C8 witness: a run with one bad-marker batch and budget 0 stops on the
budget with the combined counter above the budget. -/
theorem C8_witness :
    (runLoop 1 (some 5) 0 initState [[pBadMarker]]).reason = .budget
    ∧ 0 < errSum (runLoop 1 (some 5) 0 initState [[pBadMarker]]).state :=
  ⟨by decide, (C8_error_budget_gate 1 0 [[pBadMarker]]).2 5 (by decide)⟩

/-- C9: with `max_pkts = 10` and `buffer_size = 7` a clean stream of 20
packets yields exactly 14 accepted packets (two full batches) and a
cap stop; in general a cap stop never happens below the cap, and - when
every batch holds at most `k` packets - never more than one batch's worth
above it. -/
theorem C9_cap_overshoot :
    ((extractModel 1 (some 10) 7 1000000000 cleanStream20).out.length = 14
     ∧ (extractModel 1 (some 10) 7 1000000000 cleanStream20).state.pktCnt = 14
     ∧ (extractModel 1 (some 10) 7 1000000000 cleanStream20).reason = .cap)
    ∧ (∀ channels m budget batches st,
        (runLoop channels (some m) budget st batches).reason = .cap →
        m ≤ (runLoop channels (some m) budget st batches).state.pktCnt)
    ∧ (∀ channels m budget k batches st, st.pktCnt < m →
        (∀ b ∈ batches, b.length ≤ k) →
        (runLoop channels (some m) budget st batches).reason = .cap →
        (runLoop channels (some m) budget st batches).state.pktCnt < m + k) :=
  ⟨by refine ⟨?_, ?_, ?_⟩ <;> decide,
    fun channels m budget batches st => runLoop_cap_ge channels m budget batches st,
    fun channels m budget k batches st hm hk =>
      runLoop_cap_overshoot channels m budget k batches st hm hk⟩

/-- C9 witness: both general cap bounds applied to the concrete clean
20-packet run. -/
theorem C9_witness :
    (runLoop 1 (some 10) 1000000000 initState (chunkList 7 cleanStream20)).reason = .cap
    ∧ 10 ≤ (runLoop 1 (some 10) 1000000000 initState
        (chunkList 7 cleanStream20)).state.pktCnt
    ∧ (runLoop 1 (some 10) 1000000000 initState
        (chunkList 7 cleanStream20)).state.pktCnt < 10 + 7 :=
  ⟨by decide,
    C9_cap_overshoot.2.1 1 10 1000000000 (chunkList 7 cleanStream20) initState (by decide),
    C9_cap_overshoot.2.2 1 10 1000000000 7 (chunkList 7 cleanStream20) initState
      (by decide) (by decide) (by decide)⟩

/-- C10: every call of `nrd2mda_fast` reads the local name `channels`
(line 613) before it is assigned (line 636), so whatever the branch
oracle and for any statement budget at least 2, execution raises
`UnboundLocalError` with zero files opened: no input or output file is
ever opened and no output is produced. -/
theorem C10_unbound_channels (oracle : ℕ → Bool) (fuel : ℕ) :
    (pyRunFast oracle (fuel + 2)).2 = .err (.unboundLocal vChannels)
    ∧ (pyRunFast oracle (fuel + 2)).1.opens = 0
    ∧ vChannels ∈ pyLocalsFast ∧ vChannels ∉ pyParamsFast :=
  ⟨rfl, rfl, by decide, by decide⟩

end Lynxio
